import Mathlib

/-!
Shallow embedding of `main.py` (FAQ scraping pipeline, active code at lines
201-404): the URL classifier, the breadth-first site crawler with domain and
path confinement, the resilient CSV parser for the generator's output, the
record normalization / export stage, and the background-task orchestrator.
External collaborators (HTTP transport via `requests`, HTML parsing via
`BeautifulSoup`, `tldextract`, `urllib.parse`, the OpenAI client, cloud
storage) are modelled as explicit capability parameters (`WebEnv`, `synth`);
everything else is translated from the source.  Python strings are modelled
as `String` / `List Char`.
-/

namespace ScrapV2

/-! ### Python string primitives used by the source

`str.strip`, `str.startswith`, `str.splitlines`, `str.lower`, substring
membership (`in`), and `str.split` with separator `"csv"`. -/

/-- Characters stripped by Python `str.strip()` with no argument. -/
def isPySpace (c : Char) : Bool :=
  c = ' ' || c = '\t' || c = '\n' || c = '\r' || c = '\x0b' || c = '\x0c'

/-- Python `s.strip(chars)`: drop characters satisfying `p` from both ends. -/
def trimBy (p : Char → Bool) (s : List Char) : List Char :=
  ((s.dropWhile p).reverse.dropWhile p).reverse

/-- Python `s.strip()`. -/
def trimWs (s : List Char) : List Char := trimBy isPySpace s

/-- Python `s.strip("\x60")` (strip backticks from both ends). -/
def trimTicks (s : List Char) : List Char := trimBy (fun c => c = '`') s

/-- Helper for Python `s.startswith(pre)`: is `p` an initial segment of `s`? -/
def strHasPre : List Char → List Char → Bool
  | [], _ => true
  | _ :: _, [] => false
  | a :: p, b :: s => a == b && strHasPre p s

/-- Python `s.startswith(pre)`. -/
def pyStartswith (s pre : String) : Bool := strHasPre pre.data s.data

/-- Python substring membership `needle in s`. -/
def strHasSub (needle : List Char) : List Char → Bool
  | [] => needle.isEmpty
  | c :: t => strHasPre needle (c :: t) || strHasSub needle t

/-- Python `s.lower()` (ASCII-adequate model). -/
def lowerL (s : List Char) : List Char := s.map Char.toLower

/-- Python `s.splitlines()` restricted to the line separators that occur in
this pipeline (`\n`, `\r\n`, `\r`); a trailing separator produces no empty
final line, and the empty string has no lines. -/
def splitLines : List Char → List (List Char)
  | [] => []
  | '\r' :: '\n' :: t => [] :: splitLines t
  | '\n' :: t => [] :: splitLines t
  | '\r' :: t => [] :: splitLines t
  | c :: t =>
    match splitLines t with
    | [] => [[c]]
    | l :: ls => (c :: l) :: ls

/-- Python `s.split("csv")`: segments between non-overlapping, left-to-right
occurrences of the separator `csv`. -/
def splitCsv : List Char → List (List Char)
  | [] => [[]]
  | 'c' :: 's' :: 'v' :: t => [] :: splitCsv t
  | c :: t =>
    match splitCsv t with
    | [] => [[c]]
    | l :: ls => (c :: l) :: ls

/-- Does `s` contain the substring `csv`?  (Mirrors the pattern structure of
`splitCsv`.) -/
def containsCsv : List Char → Bool
  | [] => false
  | 'c' :: 's' :: 'v' :: _ => true
  | _ :: t => containsCsv t

/-- Python `s.split("csv")[-1]`: the text after the last occurrence of `csv`
(`s` itself when there is no occurrence). -/
def afterLastCsv (s : List Char) : List Char := (splitCsv s).getLastD []

/-! ### URL classifier (source lines 241-246) -/

/-- Source line 241-242: `def is_valid_url(url): return url.startswith("http")`. -/
def is_valid_url (url : String) : Bool := pyStartswith url "http"

/-- Modelled from the spec: `isFetchable(url)` is "true iff the URL string
begins with an HTTP/HTTPS scheme prefix" (spec 4.1).  Used to compare the
spec's wording against `is_valid_url`. -/
def spec_beginsWithHttpScheme (url : String) : Bool :=
  pyStartswith url "http://" || pyStartswith url "https://"

/-! ### Resilient tabular parser (source lines 317-338)

The `csv` stdlib module is modelled by `csvFields` (one-line record parsing
with the default dialect: comma delimiter, double-quote quoting with `""`
escapes; quoted fields spanning several physical lines do not occur after
`splitlines` filtering and are not modelled) and `dictReader`
(`csv.DictReader`: first row gives the field names, short rows are padded
with `None` = `restval`, values beyond the field names would go under the
`restkey` key `None`, which no later code consults, and blank data rows are
skipped). -/

/-- A parsed record: association list from field name to value, where a
value of `none` models Python `None` (the `DictReader` `restval`). -/
abbrev Record := List (String × Option String)

/-- One step of the csv field scanner.  `inQ` is true inside a quoted
field. -/
def csvFieldsGo (inQ : Bool) (field : List Char) (acc : List (List Char)) :
    List Char → List (List Char)
  | [] => (field.reverse :: acc).reverse
  | '"' :: '"' :: t2 =>
    if inQ then csvFieldsGo true ('"' :: field) acc t2
    else
      if field.isEmpty then csvFieldsGo true field acc ('"' :: t2)
      else csvFieldsGo false ('"' :: field) acc ('"' :: t2)
  | '"' :: t =>
    if inQ then csvFieldsGo false field acc t
    else
      if field.isEmpty then csvFieldsGo true field acc t
      else csvFieldsGo false ('"' :: field) acc t
  | c :: t =>
    if inQ then csvFieldsGo true (c :: field) acc t
    else
      if c = ',' then csvFieldsGo false [] (field.reverse :: acc) t
      else csvFieldsGo false (c :: field) acc t

/-- Fields of one csv line (default dialect). -/
def csvFields (s : List Char) : List (List Char) := csvFieldsGo false [] [] s

/-- `csv.reader` applied to one physical line: a blank line yields the empty
row `[]`, any other line is scanned into fields. -/
def csvRowOf (l : List Char) : List (List Char) :=
  if l.isEmpty then [] else csvFields l

/-- Insert with Python `dict` semantics: a later binding for an existing key
overwrites the earlier one, otherwise the pair is appended. -/
def dictUpsert (d : Record) (k : String) (v : Option String) : Record :=
  if d.any (fun p => p.1 == k) then
    d.map (fun p => if p.1 == k then (p.1, v) else p)
  else d ++ [(k, v)]

/-- `DictReader` row construction: `dict(zip(fieldnames, row))`, padding a
short row with `restval = None`; values beyond the field names belong to the
`restkey` entry, which the source never reads and which is omitted here. -/
def mkRecord (fns : List String) (vals : List String) : Record :=
  let padded := vals.map some ++ List.replicate (fns.length - vals.length) none
  (fns.zip padded).foldl (fun d kv => dictUpsert d kv.1 kv.2) []

/-- `list(csv.DictReader(lines))`: the first line provides the field names,
each later non-blank row becomes a record. -/
def dictReader (lines : List (List Char)) : List Record :=
  match lines with
  | [] => []
  | h :: t =>
    let fns := (csvRowOf h).map List.asString
    (((t.map csvRowOf).filter (fun r => !r.isEmpty)).map
      (fun r => mkRecord fns (r.map List.asString)))

/-- Python `key in d` for a record. -/
def hasKey (d : Record) (k : String) : Bool := d.any (fun p => p.1 == k)

/-- Source lines 323-338 of `safe_parse_csv`, after the code-fence
preprocessing: split into lines, synthesize a `question,answer` header when
the first line does not mention both column names, drop comma-free lines,
run `csv.DictReader`, and validate (a failed validation raises `ValueError`,
which the enclosing `except` turns into `[]`). -/
def safe_parse_inner (raw : List Char) : List Record :=
  let lines := splitLines raw
  let needHeader :=
    match lines with
    | [] => true
    | l0 :: _ =>
      !(strHasSub "question".data (lowerL l0) && strHasSub "answer".data (lowerL l0))
  let lines1 := if needHeader then "question,answer".data :: lines else lines
  let cleaned := lines1.filter (fun l => ',' ∈ l)
  let faqs := dictReader cleaned
  match faqs with
  | [] => []
  | r0 :: _ => if hasKey r0 "question" && hasKey r0 "answer" then faqs else []

/-- Source lines 317-338: `safe_parse_csv`.  The `try`/`except` wrapper means
every failure path returns `[]`; the only code-fence recovery is
`raw_csv.strip("\x60").split("csv")[-1].strip()` when the stripped input
starts with three backticks. -/
def safe_parse_csv (s : String) : List Record :=
  let raw0 := trimWs s.data
  let raw1 :=
    if strHasPre "```".data raw0 then trimWs (afterLastCsv (trimTicks raw0))
    else raw0
  safe_parse_inner raw1

/-- Modelled from the spec (4.4 step 2): "If the text is wrapped in a fenced
code block marker, strip the fence delimiters and any leading language tag
before the first line break" and parse the inner content.  Used to compare
the spec's fence handling against the source's. -/
def spec_fenceParse (s : String) : List Record :=
  let raw0 := trimWs s.data
  if strHasPre "```".data raw0 then
    let noLead := raw0.drop 3
    let noTrail := (noLead.reverse.dropWhile (fun c => c = '`')).reverse
    let inner := noTrail.dropWhile (fun c => c ≠ '\n')
    safe_parse_inner (trimWs inner)
  else safe_parse_inner raw0

/-! ### Site crawler (source lines 248-292)

`requests.get`, `BeautifulSoup`, `tldextract.extract`, `urllib.parse.urljoin`
and `urllib.parse.urlparse` are external collaborators, modelled as the
capability record `WebEnv`.  `fetch` returns `none` when `requests.get`
raises (timeout / transport error) and `some (status_code, text)`
otherwise. -/

structure WebEnv where
  fetch : String → Option (Nat × String)
  soup_text : String → String
  soup_links : String → List String
  urljoin : String → String → String
  tldextract_domain : String → String
  tldextract_suffix : String → String
  urlparse_path : String → String

/-- Source lines 244-246: `get_domain` returns `f"{ext.domain}.{ext.suffix}"`
for `ext = tldextract.extract(url)`. -/
def get_domain (env : WebEnv) (url : String) : String :=
  env.tldextract_domain url ++ "." ++ env.tldextract_suffix url

/-- Python `s.rstrip("/")`. -/
def pyRstripSlash (s : String) : String :=
  ((s.data.reverse.dropWhile (fun c => c = '/')).reverse).asString

/-- Source line 255: `base_path = parsed_root.path.rstrip("/") + "/"`. -/
def base_path_of (env : WebEnv) (url : String) : String :=
  pyRstripSlash (env.urlparse_path url) ++ "/"

/-- Crawler state: the pending queue `to_visit`, the `visited` set (modelled
as its insertion-ordered list; insertions happen only under a
not-yet-member guard), and the emitted pages.  `enq` and `fetched` are
observation-only histories — every URL ever placed on the queue, and every
URL ever passed to `fetch` — recorded so that at-most-once properties can be
stated; they never influence control flow. -/
structure CrawlState where
  to_visit : List String
  visited : List String
  html_pages : List (String × String)
  enq : List String
  fetched : List String
  deriving DecidableEq, Repr

/-- Source lines 279-285: the enqueue guard for a resolved absolute URL. -/
def enqueueGuard (env : WebEnv) (bd bp : String) (visited q : List String)
    (a : String) : Prop :=
  is_valid_url a = true ∧ get_domain env a = bd ∧ a ∉ visited ∧ a ∉ q ∧
    pyStartswith (env.urlparse_path a) bp = true

instance (env : WebEnv) (bd bp : String) (visited q : List String) (a : String) :
    Decidable (enqueueGuard env bd bp visited q a) := by
  unfold enqueueGuard; infer_instance

/-- Source lines 274-286: the link-discovery loop of one page.  Each `href`
is resolved against the current URL and appended to the queue when the guard
holds; the `not in to_visit` test consults the queue as already extended by
earlier iterations of the same loop. -/
def enqueue_links (env : WebEnv) (bd bp current : String) (visited : List String)
    (q : List String) (hrefs : List String) : List String :=
  hrefs.foldl
    (fun q href =>
      let a := env.urljoin current href
      if enqueueGuard env bd bp visited q a then q ++ [a] else q)
    q

/-- One iteration of the `while to_visit:` loop (source lines 257-290).  On
an empty queue the state is returned unchanged (the loop has terminated).
A fetch failure or a non-200 status skips the page but keeps it visited. -/
def crawl_step (env : WebEnv) (bd bp : String) : CrawlState → CrawlState
  | ⟨[], visited, pages, enq, fetched⟩ => ⟨[], visited, pages, enq, fetched⟩
  | ⟨current :: rest, visited, pages, enq, fetched⟩ =>
    if current ∈ visited then ⟨rest, visited, pages, enq, fetched⟩
    else
      let visited' := current :: visited
      let fetched' := fetched ++ [current]
      match env.fetch current with
      | none => ⟨rest, visited', pages, enq, fetched'⟩
      | some (status, body) =>
        if status ≠ 200 then ⟨rest, visited', pages, enq, fetched'⟩
        else
          let q' := enqueue_links env bd bp current visited' rest (env.soup_links body)
          ⟨q', visited', pages ++ [(current, env.soup_text body)],
            enq ++ q'.drop rest.length, fetched'⟩

/-- Source lines 249-251: initial crawler state (the seed is the first and,
so far, only enqueued URL). -/
def crawl_init (url : String) : CrawlState := ⟨[url], [], [], [url], []⟩

/-- `n` iterations of the crawl loop. -/
def crawl_run (env : WebEnv) (bd bp : String) (n : Nat) (s : CrawlState) : CrawlState :=
  (crawl_step env bd bp)^[n] s

/-- Source lines 248-292: `crawl_site(url, base_domain)`, run for `fuel`
loop iterations (the Python loop runs until the queue empties; any `fuel`
at least that number of iterations gives the same result, because the step
function fixes states with an empty queue). -/
def crawl_site (env : WebEnv) (fuel : Nat) (url base_domain : String) :
    List (String × String) :=
  (crawl_run env base_domain (base_path_of env url) fuel (crawl_init url)).html_pages

/-- The visitation bookkeeping invariant of a crawler state: no URL was ever
enqueued twice, the `visited` set model and the pending queue are
duplicate-free and mutually exclusive, every URL ever enqueued is currently
pending or visited, the fetch history is exactly the visitation history (so
no URL is fetched twice), and every emitted page is for a visited URL. -/
def VisitInvariant (s : CrawlState) : Prop :=
  s.enq.Nodup ∧ s.to_visit.Nodup ∧ s.visited.Nodup ∧
  (∀ u, u ∈ s.enq ↔ (u ∈ s.visited ∨ u ∈ s.to_visit)) ∧
  (∀ u, ¬(u ∈ s.visited ∧ u ∈ s.to_visit)) ∧
  s.fetched = s.visited.reverse ∧
  (∀ p ∈ s.html_pages, p.1 ∈ s.visited)

/-- Confinement of a crawler state: every URL ever enqueued is the seed or
passed the domain and path-prefix guard. -/
def ConfinedTo (env : WebEnv) (bd bp seed : String) (s : CrawlState) : Prop :=
  ∀ u ∈ s.enq, u = seed ∨
    (get_domain env u = bd ∧ pyStartswith (env.urlparse_path u) bp = true)

/-! ### Synthesis, aggregation, export, orchestration (source lines 294-396) -/

/-- Source lines 294-315: `extract_faqs_from_text`.  The OpenAI call is the
capability `synth`, applied to the truncated page text (`text[:8000]` inside
the prompt) and the page URL; `none` models a raised `openai` exception, and
a successful response is stripped before being returned. -/
def extract_faqs_from_text (synth : String → String → Option String)
    (text page_url : String) : Option String :=
  (synth (text.take 8000) page_url).map (fun r => (trimWs r.data).asString)

/-- Source lines 366-373: the per-page loop building `all_faqs`.  Python's
`if csv_text:` is false for both `None` and the empty string. -/
def aggregate (synth : String → String → Option String)
    (pages : List (String × String)) : List Record :=
  pages.foldl
    (fun acc p =>
      match extract_faqs_from_text synth p.2 p.1 with
      | none => acc
      | some c => if c = "" then acc else acc ++ safe_parse_csv c)
    []

/-- Source line 380/382: the fixed export schema. -/
def fieldnames : List String := ["question", "answer"]

/-- Python `row.get(key, "")` on a record whose values may be `None`. -/
def pyGetD (row : Record) (k : String) : Option String :=
  match (row.find? (fun p => p.1 == k)).map (fun p => p.2) with
  | some v => v
  | none => some ""

/-- Source lines 383-386: `{key: row.get(key, "") for key in fieldnames}`. -/
def cleanRecord (row : Record) : Record :=
  fieldnames.map (fun k => (k, pyGetD row k))

/-- The field strings `csv.DictWriter` emits for one record: values are
looked up per field name (`restval = ""` for an absent key) and a `None`
value is written as the empty string. -/
def writtenRow (r : Record) : List String :=
  fieldnames.map (fun k =>
    match (r.find? (fun p => p.1 == k)).map (fun p => p.2) with
    | some v => v.getD ""
    | none => "")

/-- The string exported for field `k` of a raw record: the stored value when
there is one, and the empty string when the key is absent or maps to
`None`. -/
def fieldValueOrEmpty (r : Record) (k : String) : String :=
  match (r.find? (fun p => p.1 == k)).map (fun p => p.2) with
  | some (some s) => s
  | _ => ""

/-- `csv.writer` field rendering (`QUOTE_MINIMAL`): quote and double the
quotes when the field contains a delimiter, quote, or line break. -/
def csvFieldOut (s : String) : String :=
  if s.data.any (fun c => c = ',' || c = '"' || c = '\r' || c = '\n') then
    ('"' :: (s.data.foldr (fun c acc =>
      (if c = '"' then ['"', '"'] else [c]) ++ acc) []) ++ ['"']).asString
  else s

/-- One serialized csv line (`\r\n` terminator, the `csv` module default). -/
def csvLineOut (fields : List String) : String :=
  String.intercalate "," (fields.map csvFieldOut) ++ "\r\n"

/-- Source lines 379-387: `writeheader()` followed by
`writerows(cleaned_faqs)`; the resulting buffer contents. -/
def renderCsv (faqs : List Record) : String :=
  csvLineOut fieldnames ++
    String.join ((faqs.map cleanRecord).map (fun r => csvLineOut (writtenRow r)))

/-- Observable outcome of one background job.  `uploaded` records that
`upload_to_gcs` was invoked, with the object key and serialized table; the
three failure constructors correspond to the three early `return`s of
`scrape_and_generate_faqs_task`. -/
inductive TaskOutcome where
  | invalidUrl
  | noPages
  | noFaqs
  | uploaded (objectKey : String) (csvData : String)
  deriving DecidableEq, Repr

/-- Source lines 352-391: `scrape_and_generate_faqs_task` (the early
`return`-on-invalid is written as the `else` branch of the validity test). -/
def scrape_and_generate_faqs_task (env : WebEnv)
    (synth : String → String → Option String) (fuel : Nat) (url : String) :
    TaskOutcome :=
  if is_valid_url url then
    let base_domain := get_domain env url
    let pages := crawl_site env fuel url base_domain
    if pages.isEmpty then .noPages
    else
      let all_faqs := aggregate synth pages
      if all_faqs.isEmpty then .noFaqs
      else .uploaded "faq/faq_scraped.csv" (renderCsv all_faqs)
  else .invalidUrl

/-- What the submission endpoint returns and schedules.  Source lines
393-396: the response body is a fixed acknowledgment, and the background
task is scheduled with the raw input URL — no validation happens in the
request/response cycle. -/
structure EndpointResult where
  response : String
  scheduled_url : String
  deriving DecidableEq, Repr

/-- The acknowledgment message of `scrape_endpoint`. -/
def ack_message : String := "✅ Scraping started in background."

/-- Source lines 393-396: `scrape_endpoint`. -/
def scrape_endpoint (url : String) : EndpointResult :=
  ⟨ack_message, url⟩

/-! ### Concrete test environments

Small closed instantiations of the collaborator capabilities, used to
evaluate the pipeline on explicit sites. -/

/-- A one-page site at a root seed whose page links to the same registrable
domain written without a path (`http://example.com`, whose parsed path is
the empty string, exactly as `urllib.parse.urlparse` reports). -/
def envRoot : WebEnv where
  fetch := fun u =>
    if u = "http://example.com/" then some (200, "B1")
    else if u = "http://example.com" then some (200, "B2") else none
  soup_text := fun b => b
  soup_links := fun b => if b = "B1" then ["http://example.com"] else []
  urljoin := fun _ h => h
  tldextract_domain := fun _ => "example"
  tldextract_suffix := fun _ => "com"
  urlparse_path := fun u => if u = "http://example.com/" then "/" else ""

/-- A five-page site: the seed links to `/a` and `/b` (same depth), `/a`
links to `/c`, and `/b` links to `/d`. -/
def envBfs : WebEnv where
  fetch := fun u =>
    if u = "http://s.com/" then some (200, "S")
    else if u = "http://s.com/a" then some (200, "A")
    else if u = "http://s.com/b" then some (200, "B")
    else if u = "http://s.com/c" then some (200, "C")
    else if u = "http://s.com/d" then some (200, "D") else none
  soup_text := fun b => b
  soup_links := fun b =>
    if b = "S" then ["/a", "/b"]
    else if b = "A" then ["/c"]
    else if b = "B" then ["/d"] else []
  urljoin := fun _ h => "http://s.com" ++ h
  tldextract_domain := fun _ => "s"
  tldextract_suffix := fun _ => "com"
  urlparse_path := fun u => (u.data.drop 12).asString

/-- A site where every fetch fails (transport error on each request). -/
def envDead : WebEnv where
  fetch := fun _ => none
  soup_text := fun b => b
  soup_links := fun _ => []
  urljoin := fun _ h => h
  tldextract_domain := fun _ => "e"
  tldextract_suffix := fun _ => "com"
  urlparse_path := fun _ => "/"

/-- A synthesis capability that always fails. -/
def synthNone : String → String → Option String := fun _ _ => none

/-! ### Helper lemmas about the string primitives -/

/-- If an initial-segment test succeeds for `p ++ q`, it succeeds for `p`. -/
theorem strHasPre_of_append {p q s : List Char} (h : strHasPre (p ++ q) s = true) :
    strHasPre p s = true := by
  induction p generalizing s with
  | nil => rfl
  | cons a p ih =>
    cases s with
    | nil => simp [strHasPre] at h
    | cons b s =>
      simp only [List.cons_append, strHasPre, Bool.and_eq_true] at h ⊢
      exact ⟨h.1, ih h.2⟩

/-- Characters surviving a two-sided strip come from the original string. -/
theorem mem_of_mem_trimBy {p : Char → Bool} {c : Char} {s : List Char}
    (h : c ∈ trimBy p s) : c ∈ s := by
  unfold trimBy at h
  rw [List.mem_reverse] at h
  have h1 : c ∈ (s.dropWhile p).reverse :=
    (List.dropWhile_sublist (l := (s.dropWhile p).reverse) (p := p)).mem h
  rw [List.mem_reverse] at h1
  exact (List.dropWhile_sublist (l := s) (p := p)).mem h1

/-- Characters of any `split("csv")` segment come from the original string. -/
theorem mem_of_mem_splitCsv :
    ∀ {s seg : List Char}, seg ∈ splitCsv s → ∀ {c : Char}, c ∈ seg → c ∈ s := by
  intro s
  induction s using splitCsv.induct with
  | case1 =>
    intro seg hseg c hc
    simp only [splitCsv, List.mem_singleton] at hseg
    subst hseg
    exact absurd hc (List.not_mem_nil c)
  | case2 t ih =>
    intro seg hseg c hc
    simp only [splitCsv, List.mem_cons] at hseg
    rcases hseg with h | h
    · subst h; exact absurd hc (List.not_mem_nil c)
    · have := ih h hc
      simp [this]
  | case3 a t hne hmt ih =>
    intro seg hseg c hc
    · rw [splitCsv, hmt] at hseg
      · simp only [List.mem_singleton] at hseg
        subst hseg
        simp only [List.mem_singleton] at hc
        simp [hc]
      · exact hne
  | case4 a t hne l ls hmt ih =>
    intro seg hseg c hc
    · rw [splitCsv, hmt] at hseg
      · simp only [List.mem_cons] at hseg
        rcases hseg with h | h
        · subst h
          rcases List.mem_cons.mp hc with h1 | h1
          · simp [h1]
          · exact List.mem_cons_of_mem a (ih (by rw [hmt]; exact List.mem_cons_self l ls) h1)
        · exact List.mem_cons_of_mem a (ih (by rw [hmt]; exact List.mem_cons_of_mem l h) hc)
      · exact hne

/-- Characters of any line of `splitlines` come from the original string. -/
theorem mem_of_mem_splitLines :
    ∀ {s line : List Char}, line ∈ splitLines s → ∀ {c : Char}, c ∈ line → c ∈ s := by
  intro s
  induction s using splitLines.induct with
  | case1 =>
    intro line hline c hc
    simp only [splitLines] at hline
    exact absurd hline (List.not_mem_nil line)
  | case2 t ih =>
    intro line hline c hc
    simp only [splitLines, List.mem_cons] at hline
    rcases hline with h | h
    · subst h; exact absurd hc (List.not_mem_nil c)
    · have := ih h hc; simp [this]
  | case3 t ih =>
    intro line hline c hc
    simp only [splitLines, List.mem_cons] at hline
    rcases hline with h | h
    · subst h; exact absurd hc (List.not_mem_nil c)
    · have := ih h hc; simp [this]
  | case4 t hne ih =>
    intro line hline c hc
    · rw [splitLines] at hline
      · simp only [List.mem_cons] at hline
        rcases hline with h | h
        · subst h; exact absurd hc (List.not_mem_nil c)
        · have := ih h hc; simp [this]
      · exact hne
  | case5 a t h1 h2 h3 hmt ih =>
    intro line hline c hc
    · rw [splitLines, hmt] at hline
      · simp only [List.mem_singleton] at hline
        subst hline
        simp only [List.mem_singleton] at hc
        simp [hc]
      · exact h1
      · exact h2
      · exact h3
  | case6 a t h1 h2 h3 l ls hmt ih =>
    intro line hline c hc
    · rw [splitLines, hmt] at hline
      · simp only [List.mem_cons] at hline
        rcases hline with h | h
        · subst h
          rcases List.mem_cons.mp hc with hx | hx
          · simp [hx]
          · exact List.mem_cons_of_mem a (ih (by rw [hmt]; exact List.mem_cons_self l ls) hx)
        · exact List.mem_cons_of_mem a (ih (by rw [hmt]; exact List.mem_cons_of_mem l h) hc)
      · exact h1
      · exact h2
      · exact h3

/-- `getLastD` of a list is a member or the default. -/
theorem getLastD_mem_or (l : List α) (d : α) : l.getLastD d ∈ l ∨ l.getLastD d = d := by
  induction l generalizing d with
  | nil => exact Or.inr rfl
  | cons a t ih =>
    rw [List.getLastD_cons]
    rcases ih a with h | h
    · exact Or.inl (List.mem_cons_of_mem a h)
    · rw [h]; exact Or.inl (List.mem_cons_self a t)

/-- Characters of `split("csv")[-1]` come from the original string. -/
theorem mem_of_mem_afterLastCsv {s : List Char} {c : Char} (h : c ∈ afterLastCsv s) :
    c ∈ s := by
  unfold afterLastCsv at h
  rcases getLastD_mem_or (splitCsv s) [] with hm | he
  · exact mem_of_mem_splitCsv hm h
  · rw [he] at h
    exact absurd h (List.not_mem_nil c)

/-- When the input contains no comma at all, the parser's validation stage
rejects the result and the empty sequence is returned: the only line that
can survive the comma filter is the synthesized header. -/
theorem safe_parse_inner_of_no_comma {r : List Char} (h : ',' ∉ r) :
    safe_parse_inner r = [] := by
  have hline : ∀ l ∈ splitLines r, ',' ∉ l := by
    intro l hl hc
    exact h (mem_of_mem_splitLines hl hc)
  simp only [safe_parse_inner]
  cases hsp : splitLines r with
  | nil => decide
  | cons l0 ls =>
    have hfil : (l0 :: ls).filter (fun l => decide (',' ∈ l)) = [] := by
      rw [List.filter_eq_nil_iff]
      intro a ha
      rw [decide_eq_true_eq]
      exact hline a (by rw [hsp]; exact ha)
    by_cases hq :
        (strHasSub "question".data (lowerL l0) && strHasSub "answer".data (lowerL l0)) = true
    · simp [hq, hfil]
      rfl
    · rw [Bool.not_eq_true] at hq
      simp only [hq, Bool.not_false, if_true, List.filter_cons, hfil]
      decide

/-- The enqueue fold of one page appends a block of fresh links at the tail
of the queue; every appended link passes the full guard (fetchable, same
registrable domain, unseen, not already queued, path-confined), and the
extended queue stays duplicate-free. -/
theorem enqueue_links_spec (env : WebEnv) (bd bp current : String)
    (visited : List String) :
    ∀ (hrefs : List String) (q : List String),
      ∃ added, enqueue_links env bd bp current visited q hrefs = q ++ added ∧
        (∀ u ∈ added, is_valid_url u = true ∧ get_domain env u = bd ∧
          u ∉ visited ∧ u ∉ q ∧ pyStartswith (env.urlparse_path u) bp = true) ∧
        (q.Nodup → (q ++ added).Nodup) := by
  intro hrefs
  induction hrefs with
  | nil =>
    intro q
    exact ⟨[], by simp [enqueue_links], by simp, by simp⟩
  | cons href hs ih =>
    intro q
    have step : enqueue_links env bd bp current visited q (href :: hs) =
        enqueue_links env bd bp current visited
          (if enqueueGuard env bd bp visited q (env.urljoin current href)
           then q ++ [env.urljoin current href] else q) hs := rfl
    by_cases hg : enqueueGuard env bd bp visited q (env.urljoin current href)
    · obtain ⟨added, h1, h2, h3⟩ := ih (q ++ [env.urljoin current href])
      refine ⟨env.urljoin current href :: added, ?_, ?_, ?_⟩
      · rw [step, if_pos hg, h1]
        simp
      · intro u hu
        rcases List.mem_cons.mp hu with rfl | hu'
        · exact ⟨hg.1, hg.2.1, hg.2.2.1, hg.2.2.2.1, hg.2.2.2.2⟩
        · obtain ⟨g1, g2, g3, g4, g5⟩ := h2 u hu'
          exact ⟨g1, g2, g3, fun hq => g4 (List.mem_append_left _ hq), g5⟩
      · intro hq
        have hqa : (q ++ [env.urljoin current href]).Nodup := by
          rw [List.nodup_append]
          refine ⟨hq, List.nodup_singleton _, ?_⟩
          intro x hx hx2
          rw [List.mem_singleton] at hx2
          subst hx2
          exact hg.2.2.2.1 hx
        rw [List.append_cons]
        exact h3 hqa
    · obtain ⟨added, h1, h2, h3⟩ := ih q
      exact ⟨added, by rw [step, if_neg hg]; exact h1, h2, h3⟩

/-- The initial crawler state satisfies the visitation invariant. -/
theorem visitInvariant_init (url : String) : VisitInvariant (crawl_init url) := by
  unfold VisitInvariant crawl_init
  refine ⟨List.nodup_singleton url, List.nodup_singleton url, List.nodup_nil,
    ?_, ?_, rfl, ?_⟩ <;> simp

/-- One crawl iteration preserves the visitation invariant. -/
theorem visitInvariant_step (env : WebEnv) (bd bp : String) (s : CrawlState)
    (h : VisitInvariant s) : VisitInvariant (crawl_step env bd bp s) := by
  obtain ⟨tv, vis, pages, enq, fetched⟩ := s
  cases tv with
  | nil => exact h
  | cons current rest =>
    obtain ⟨henq, htv, hvis, hiff, hexcl, hfetch, hpages⟩ := h
    dsimp only at henq htv hvis hiff hexcl hfetch hpages
    by_cases hv : current ∈ vis
    · have hstep : crawl_step env bd bp ⟨current :: rest, vis, pages, enq, fetched⟩ =
          ⟨rest, vis, pages, enq, fetched⟩ := by
        simp [crawl_step, hv]
      rw [hstep]
      refine ⟨henq, (List.nodup_cons.mp htv).2, hvis, ?_, ?_, hfetch, hpages⟩
      · intro u
        rw [hiff u]
        constructor
        · rintro (h1 | h1)
          · exact Or.inl h1
          · rcases List.mem_cons.mp h1 with rfl | h2
            · exact Or.inl hv
            · exact Or.inr h2
        · rintro (h1 | h1)
          · exact Or.inl h1
          · exact Or.inr (List.mem_cons_of_mem _ h1)
      · intro u hu
        exact hexcl u ⟨hu.1, List.mem_cons_of_mem _ hu.2⟩
    · have hcr : current ∉ rest := (List.nodup_cons.mp htv).1
      have hrest : rest.Nodup := (List.nodup_cons.mp htv).2
      have hvisn : (current :: vis).Nodup := List.nodup_cons.mpr ⟨hv, hvis⟩
      have hfet : fetched ++ [current] = (current :: vis).reverse := by
        rw [List.reverse_cons, hfetch]
      have hskip :
          VisitInvariant ⟨rest, current :: vis, pages, enq, fetched ++ [current]⟩ := by
        refine ⟨henq, hrest, hvisn, ?_, ?_, hfet, ?_⟩
        · intro u
          rw [hiff u]
          constructor
          · rintro (h1 | h1)
            · exact Or.inl (List.mem_cons_of_mem _ h1)
            · rcases List.mem_cons.mp h1 with rfl | h2
              · exact Or.inl (List.mem_cons_self _ _)
              · exact Or.inr h2
          · rintro (h1 | h1)
            · rcases List.mem_cons.mp h1 with rfl | h2
              · exact Or.inr (List.mem_cons_self _ _)
              · exact Or.inl h2
            · exact Or.inr (List.mem_cons_of_mem _ h1)
        · intro u hu
          rcases List.mem_cons.mp hu.1 with rfl | h2
          · exact hcr hu.2
          · exact hexcl u ⟨h2, List.mem_cons_of_mem _ hu.2⟩
        · intro p hp
          exact List.mem_cons_of_mem _ (hpages p hp)
      cases hfe : env.fetch current with
      | none =>
        have hstep : crawl_step env bd bp ⟨current :: rest, vis, pages, enq, fetched⟩ =
            ⟨rest, current :: vis, pages, enq, fetched ++ [current]⟩ := by
          simp [crawl_step, hv, hfe]
        rw [hstep]
        exact hskip
      | some sb =>
        obtain ⟨status, body⟩ := sb
        by_cases hst : status = 200
        · obtain ⟨added, ha1, ha2, ha3⟩ :=
            enqueue_links_spec env bd bp current (current :: vis) (env.soup_links body) rest
          have hdrop : (rest ++ added).drop rest.length = added := List.drop_left rest added
          have hstep : crawl_step env bd bp ⟨current :: rest, vis, pages, enq, fetched⟩ =
              ⟨rest ++ added, current :: vis, pages ++ [(current, env.soup_text body)],
                enq ++ added, fetched ++ [current]⟩ := by
            simp [crawl_step, hv, hfe, hst, ha1, hdrop]
          rw [hstep]
          have haddednodup : added.Nodup := (List.nodup_append.mp (ha3 hrest)).2.1
          have hfresh : ∀ u ∈ added, u ∉ current :: vis ∧ u ∉ rest := fun u hu =>
            ⟨(ha2 u hu).2.2.1, (ha2 u hu).2.2.2.1⟩
          refine ⟨?_, ha3 hrest, hvisn, ?_, ?_, hfet, ?_⟩
          · rw [List.nodup_append]
            refine ⟨henq, haddednodup, ?_⟩
            intro x hx hx2
            obtain ⟨hnv, hnr⟩ := hfresh x hx2
            rcases (hiff x).mp hx with h1 | h1
            · exact hnv (List.mem_cons_of_mem _ h1)
            · rcases List.mem_cons.mp h1 with rfl | h2
              · exact hnv (List.mem_cons_self _ _)
              · exact hnr h2
          · intro u
            constructor
            · intro hu
              rcases List.mem_append.mp hu with h1 | h1
              · rcases (hiff u).mp h1 with h2 | h2
                · exact Or.inl (List.mem_cons_of_mem _ h2)
                · rcases List.mem_cons.mp h2 with rfl | h3
                  · exact Or.inl (List.mem_cons_self _ _)
                  · exact Or.inr (List.mem_append_left _ h3)
              · exact Or.inr (List.mem_append_right _ h1)
            · intro hu
              rcases hu with h1 | h1
              · rcases List.mem_cons.mp h1 with rfl | h2
                · exact List.mem_append_left _ ((hiff u).mpr (Or.inr (List.mem_cons_self _ _)))
                · exact List.mem_append_left _ ((hiff u).mpr (Or.inl h2))
              · rcases List.mem_append.mp h1 with h2 | h2
                · exact List.mem_append_left _
                    ((hiff u).mpr (Or.inr (List.mem_cons_of_mem _ h2)))
                · exact List.mem_append_right _ h2
          · intro u hu
            obtain ⟨hu1, hu2⟩ := hu
            rcases List.mem_append.mp hu2 with h1 | h1
            · rcases List.mem_cons.mp hu1 with rfl | h2
              · exact hcr h1
              · exact hexcl u ⟨h2, List.mem_cons_of_mem _ h1⟩
            · exact (hfresh u h1).1 hu1
          · intro p hp
            rcases List.mem_append.mp hp with h1 | h1
            · exact List.mem_cons_of_mem _ (hpages p h1)
            · rw [List.mem_singleton] at h1
              subst h1
              exact List.mem_cons_self _ _
        · have hstep : crawl_step env bd bp ⟨current :: rest, vis, pages, enq, fetched⟩ =
              ⟨rest, current :: vis, pages, enq, fetched ++ [current]⟩ := by
            simp [crawl_step, hv, hfe, hst]
          rw [hstep]
          exact hskip

/-- The visitation invariant holds after any number of crawl iterations. -/
theorem visitInvariant_run (env : WebEnv) (bd bp url : String) (n : Nat) :
    VisitInvariant (crawl_run env bd bp n (crawl_init url)) := by
  induction n with
  | zero => exact visitInvariant_init url
  | succ n ih =>
    rw [crawl_run, Function.iterate_succ_apply']
    exact visitInvariant_step env bd bp _ ih

/-- The initial crawler state is confined (the seed is the only enqueued
URL). -/
theorem confinedTo_init (env : WebEnv) (bd bp url : String) :
    ConfinedTo env bd bp url (crawl_init url) := by
  intro u hu
  simp only [crawl_init] at hu
  rw [List.mem_singleton] at hu
  exact Or.inl hu

/-- One crawl iteration preserves confinement of the enqueue history. -/
theorem confinedTo_step (env : WebEnv) (bd bp seed : String) (s : CrawlState)
    (h : ConfinedTo env bd bp seed s) :
    ConfinedTo env bd bp seed (crawl_step env bd bp s) := by
  obtain ⟨tv, vis, pages, enq, fetched⟩ := s
  cases tv with
  | nil => exact h
  | cons current rest =>
    by_cases hv : current ∈ vis
    · have hstep : crawl_step env bd bp ⟨current :: rest, vis, pages, enq, fetched⟩ =
          ⟨rest, vis, pages, enq, fetched⟩ := by
        simp [crawl_step, hv]
      rw [hstep]
      exact h
    · cases hfe : env.fetch current with
      | none =>
        have hstep : crawl_step env bd bp ⟨current :: rest, vis, pages, enq, fetched⟩ =
            ⟨rest, current :: vis, pages, enq, fetched ++ [current]⟩ := by
          simp [crawl_step, hv, hfe]
        rw [hstep]
        exact h
      | some sb =>
        obtain ⟨status, body⟩ := sb
        by_cases hst : status = 200
        · obtain ⟨added, ha1, ha2, _⟩ :=
            enqueue_links_spec env bd bp current (current :: vis) (env.soup_links body) rest
          have hdrop : (rest ++ added).drop rest.length = added := List.drop_left rest added
          have hstep : crawl_step env bd bp ⟨current :: rest, vis, pages, enq, fetched⟩ =
              ⟨rest ++ added, current :: vis, pages ++ [(current, env.soup_text body)],
                enq ++ added, fetched ++ [current]⟩ := by
            simp [crawl_step, hv, hfe, hst, ha1, hdrop]
          rw [hstep]
          intro u hu
          rcases List.mem_append.mp hu with h1 | h1
          · exact h u h1
          · exact Or.inr ⟨(ha2 u h1).2.1, (ha2 u h1).2.2.2.2⟩
        · have hstep : crawl_step env bd bp ⟨current :: rest, vis, pages, enq, fetched⟩ =
              ⟨rest, current :: vis, pages, enq, fetched ++ [current]⟩ := by
            simp [crawl_step, hv, hfe, hst]
          rw [hstep]
          exact h

/-- Confinement holds after any number of crawl iterations. -/
theorem confinedTo_run (env : WebEnv) (bd bp url : String) (n : Nat) :
    ConfinedTo env bd bp url (crawl_run env bd bp n (crawl_init url)) := by
  induction n with
  | zero => exact confinedTo_init env bd bp url
  | succ n ih =>
    rw [crawl_run, Function.iterate_succ_apply']
    exact confinedTo_step env bd bp url _ ih

/-! ### Claim theorems -/

/-- Claim C3: `safe_parse_csv` is total (modelled as a total function whose
failure paths all return `[]`); the empty input yields the empty sequence,
and so does any input with no parseable row (no comma anywhere, hence no
line with a field separator). -/
theorem parser_never_fails :
    safe_parse_csv "" = [] ∧ ∀ s : String, ',' ∉ s.data → safe_parse_csv s = [] := by
  refine ⟨by decide, ?_⟩
  intro s h
  by_cases hf : strHasPre "```".data (trimWs s.data) = true
  · have hsub : ',' ∉ trimWs (afterLastCsv (trimTicks (trimWs s.data))) := by
      intro hc
      exact h (mem_of_mem_trimBy (mem_of_mem_trimBy
        (mem_of_mem_afterLastCsv (mem_of_mem_trimBy hc))))
    simp only [safe_parse_csv, hf, if_true]
    exact safe_parse_inner_of_no_comma hsub
  · have hsub : ',' ∉ trimWs s.data := fun hc => h (mem_of_mem_trimBy hc)
    simp only [safe_parse_csv, Bool.not_eq_true] at hf ⊢
    simp only [hf, Bool.false_eq_true, if_false]
    exact safe_parse_inner_of_no_comma hsub

/-- Witness for `parser_never_fails` on a concrete comma-free garbage
input. -/
theorem parser_never_fails_witness :
    safe_parse_csv "just some garbage text" = [] :=
  parser_never_fails.2 "just some garbage text" (by decide)

/-- Claim C5: the crawl loop is FIFO — each iteration processes the head of
the queue (the earliest-queued URL), appends newly discovered links at the
tail, and emits at most the dequeued page, so pages appear in discovery
order.  On the concrete two-branch site, both same-depth children `/a` and
`/b` of the seed are emitted before either of their own children `/c` and
`/d`. -/
theorem crawl_bfs_order :
    (∀ (env : WebEnv) (bd bp current : String) (rest visited : List String)
        (pages : List (String × String)) (enq fetched : List String),
      ∃ added emitted,
        (crawl_step env bd bp ⟨current :: rest, visited, pages, enq, fetched⟩).to_visit =
          rest ++ added ∧
        (crawl_step env bd bp ⟨current :: rest, visited, pages, enq, fetched⟩).html_pages =
          pages ++ emitted ∧
        (emitted = [] ∨ ∃ t, emitted = [(current, t)])) ∧
    crawl_site envBfs 10 "http://s.com/" "s.com" =
      [("http://s.com/", "S"), ("http://s.com/a", "A"), ("http://s.com/b", "B"),
       ("http://s.com/c", "C"), ("http://s.com/d", "D")] := by
  constructor
  · intro env bd bp current rest visited pages enq fetched
    by_cases hv : current ∈ visited
    · exact ⟨[], [], by simp [crawl_step, hv], by simp [crawl_step, hv], Or.inl rfl⟩
    · cases hfe : env.fetch current with
      | none =>
        exact ⟨[], [], by simp [crawl_step, hv, hfe], by simp [crawl_step, hv, hfe],
          Or.inl rfl⟩
      | some sb =>
        obtain ⟨status, body⟩ := sb
        by_cases hst : status = 200
        · obtain ⟨added, h1, _, _⟩ :=
            enqueue_links_spec env bd bp current (current :: visited) (env.soup_links body) rest
          refine ⟨added, [(current, env.soup_text body)], ?_, ?_, Or.inr ⟨_, rfl⟩⟩
          · simp [crawl_step, hv, hfe, hst, h1]
          · simp [crawl_step, hv, hfe, hst]
        · exact ⟨[], [], by simp [crawl_step, hv, hfe, hst], by simp [crawl_step, hv, hfe, hst],
            Or.inl rfl⟩
  · decide

/-- Claim C9 (counterexample): `is_valid_url` is not an HTTP/HTTPS scheme
check — the malformed, non-HTTP-scheme URL `httpx://evil.example` is
accepted because the test is merely `url.startswith("http")`. -/
theorem is_valid_url_accepts_non_http_scheme :
    is_valid_url "httpx://evil.example" = true ∧
    spec_beginsWithHttpScheme "httpx://evil.example" = false := by decide

/-- Claim C9 (amended): `is_valid_url` returns true for every string that
begins with an actual `http://` or `https://` scheme prefix, but in general
it accepts exactly the strings beginning with the four characters `http`;
the empty string and strings not beginning with `http` (such as `ftp://`
URLs) are rejected, and the function is total (it never raises). -/
theorem is_valid_url_char_model :
    (∀ url : String, spec_beginsWithHttpScheme url = true → is_valid_url url = true) ∧
    (∀ url : String, pyStartswith url "http" = false → is_valid_url url = false) ∧
    is_valid_url "" = false ∧ is_valid_url "ftp://a.example" = false := by
  refine ⟨?_, ?_, by decide, by decide⟩
  · intro url h
    simp only [spec_beginsWithHttpScheme, Bool.or_eq_true] at h
    have e1 : "http://".data = "http".data ++ "://".data := rfl
    have e2 : "https://".data = "http".data ++ "s://".data := rfl
    unfold is_valid_url pyStartswith
    rcases h with h | h
    · unfold pyStartswith at h
      rw [e1] at h
      exact strHasPre_of_append h
    · unfold pyStartswith at h
      rw [e2] at h
      exact strHasPre_of_append h
  · intro url h
    unfold is_valid_url
    exact h

/-- Witness for `is_valid_url_char_model` at concrete URLs. -/
theorem is_valid_url_char_model_witness :
    is_valid_url "https://secure.example/" = true ∧
    is_valid_url "gopher://g.example" = false :=
  ⟨is_valid_url_char_model.1 "https://secure.example/" (by decide),
   is_valid_url_char_model.2.1 "gopher://g.example" (by decide)⟩

/-- Claim C8 (counterexample): a seed URL failing validation is *not*
surfaced synchronously at job submission — the endpoint returns the same
fixed acknowledgment as for a valid URL and schedules the background task
anyway. -/
theorem invalid_seed_ack_counterexample :
    is_valid_url "ftp://files.example" = false ∧
    (scrape_endpoint "ftp://files.example").response = ack_message ∧
    (scrape_endpoint "ftp://files.example").response =
      (scrape_endpoint "http://ok.example/").response := by decide

/-- Claim C8 (amended): for an invalid seed URL the submission endpoint
still acknowledges immediately; the validation failure is detected at the
start of the background task, which terminates with `invalidUrl` before any
crawl/synthesis/parse/export step — the outcome is independent of every
downstream capability and of the crawl fuel. -/
theorem invalid_seed_detected_in_background (url : String)
    (h : is_valid_url url = false) :
    (scrape_endpoint url).response = ack_message ∧
    ∀ (env : WebEnv) (synth : String → String → Option String) (fuel : Nat),
      scrape_and_generate_faqs_task env synth fuel url = .invalidUrl := by
  refine ⟨rfl, ?_⟩
  intro env synth fuel
  simp [scrape_and_generate_faqs_task, h]

/-- Witness for `invalid_seed_detected_in_background` at a concrete URL and
concrete capabilities. -/
theorem invalid_seed_detected_in_background_witness :
    (scrape_endpoint "ftp://files.example").response = ack_message ∧
    scrape_and_generate_faqs_task envDead synthNone 2 "ftp://files.example" =
      .invalidUrl :=
  ⟨(invalid_seed_detected_in_background "ftp://files.example" (by decide)).1,
   (invalid_seed_detected_in_background "ftp://files.example" (by decide)).2
     envDead synthNone 2⟩

/-- Claim C4 (counterexample): the fence recovery does not, in general,
parse the inner content of the fenced block.  For an input whose record
content contains the substring `csv`, the `split("csv")[-1]` step discards
the content up to that occurrence: the code yields the record
`{question: "rocks", answer: "yes"}` while parsing the actual inner content
(per the spec's fence-stripping description) yields
`{question: "my csv rocks", answer: "yes"}`. -/
theorem fence_inner_content_counterexample :
    safe_parse_csv "```\nquestion,answer\nmy csv rocks,yes\n```" =
      [[("question", some "rocks"), ("answer", some "yes")]] ∧
    spec_fenceParse "```\nquestion,answer\nmy csv rocks,yes\n```" =
      [[("question", some "my csv rocks"), ("answer", some "yes")]] ∧
    safe_parse_csv "```\nquestion,answer\nmy csv rocks,yes\n```" ≠
      spec_fenceParse "```\nquestion,answer\nmy csv rocks,yes\n```" := by decide

/-- Claim C4 (amended): for an input wrapped in a fenced code block the
parser strips all backticks from both ends and parses only the text after
the last occurrence of `csv`; when `csv` does not occur (Python:
`t.split("csv") == [t]`), that text is the whole inner content, so the
fence delimiters and a `csv` language tag are effectively stripped.  In
particular the input `"```csv\nquestion,answer\nWhat?,Yes.\n```"` yields
exactly one record `{question: "What?", answer: "Yes."}`. -/
theorem fence_recovery_amended :
    safe_parse_csv "```csv\nquestion,answer\nWhat?,Yes.\n```" =
      [[("question", some "What?"), ("answer", some "Yes.")]] ∧
    (∀ s : String, strHasPre "```".data (trimWs s.data) = true →
      safe_parse_csv s =
        safe_parse_inner (trimWs (afterLastCsv (trimTicks (trimWs s.data))))) ∧
    (∀ r : List Char, splitCsv r = [r] → afterLastCsv r = r) := by
  refine ⟨by decide, ?_, ?_⟩
  · intro s h
    simp [safe_parse_csv, h]
  · intro r h
    simp [afterLastCsv, h]

/-- Witness for `fence_recovery_amended` at concrete inputs. -/
theorem fence_recovery_amended_witness :
    safe_parse_csv "```csv\nq3,a3\n```" =
      safe_parse_inner
        (trimWs (afterLastCsv (trimTicks (trimWs "```csv\nq3,a3\n```".data)))) ∧
    afterLastCsv "q3,a3".data = "q3,a3".data :=
  ⟨fence_recovery_amended.2.1 "```csv\nq3,a3\n```" (by decide),
   fence_recovery_amended.2.2 "q3,a3".data (by decide)⟩

/-- Claim C10: when the trimmed input starts with a code fence, everything
up to and including the last occurrence of `csv` in the backtick-stripped
input is discarded before parsing; concretely, a fenced input whose content
contains `csv` in a data row loses the preceding record `foo,bar` (and the
head of the `csv`-containing row) entirely. -/
theorem fence_discards_through_last_csv :
    (∀ s : String, strHasPre "```".data (trimWs s.data) = true →
      safe_parse_csv s =
        safe_parse_inner (trimWs (afterLastCsv (trimTicks (trimWs s.data))))) ∧
    safe_parse_csv "```\nquestion,answer\nfoo,bar\nuses csv,indeed\n```" =
      [[("question", some ""), ("answer", some "indeed")]] := by
  refine ⟨?_, by decide⟩
  intro s h
  simp [safe_parse_csv, h]

/-- Witness for `fence_discards_through_last_csv` at a concrete input. -/
theorem fence_discards_through_last_csv_witness :
    safe_parse_csv "```\nz9,y9\n```" =
      safe_parse_inner
        (trimWs (afterLastCsv (trimTicks (trimWs "```\nz9,y9\n```".data)))) :=
  fence_discards_through_last_csv.1 "```\nz9,y9\n```" (by decide)

/-- Claim C6: the export normalization keeps every record (none is
dropped), gives each exactly the two fields `question` and `answer` in that
fixed order, and writes the empty string for a field whose value is absent
(missing key or `None` value). -/
theorem schema_stability :
    ∀ rows : List Record,
      (rows.map cleanRecord).length = rows.length ∧
      ∀ r ∈ rows, (cleanRecord r).map Prod.fst = fieldnames ∧
        writtenRow (cleanRecord r) =
          [fieldValueOrEmpty r "question", fieldValueOrEmpty r "answer"] := by
  have hget : ∀ (r : Record) (k : String), (pyGetD r k).getD "" = fieldValueOrEmpty r k := by
    intro r k
    unfold pyGetD fieldValueOrEmpty
    rcases h : r.find? (fun p => p.1 == k) with _ | ⟨k', v⟩
    · simp [h]
    · rcases v with _ | s <;> simp [h]
  intro rows
  refine ⟨List.length_map rows cleanRecord, ?_⟩
  intro r _
  constructor
  · simp [cleanRecord, fieldnames]
  · simp only [writtenRow, cleanRecord, fieldnames, List.map_cons, List.map_nil]
    simp only [List.find?_cons, beq_self_eq_true]
    norm_num
    exact ⟨hget r "question", hget r "answer"⟩

/-- Witness for `schema_stability` at a concrete partially-malformed
record. -/
theorem schema_stability_witness :
    writtenRow (cleanRecord [("answer", some "A1")]) =
      [fieldValueOrEmpty [("answer", some "A1")] "question",
       fieldValueOrEmpty [("answer", some "A1")] "answer"] :=
  ((schema_stability [[("answer", some "A1")]]).2 [("answer", some "A1")]
    (List.mem_singleton.mpr rfl)).2

/-- Claim C2: at-most-once visitation, at every instant of every crawl.
After any number of loop iterations from the initial state: the enqueue
history has no duplicates (no URL is ever enqueued twice), the visited set
model has no duplicates (no URL is marked visited twice), the fetch history
has no duplicates (no URL is fetched twice), and no URL is simultaneously
visited and pending. -/
theorem crawl_at_most_once (env : WebEnv) (bd bp url : String) (n : Nat) :
    (crawl_run env bd bp n (crawl_init url)).enq.Nodup ∧
    (crawl_run env bd bp n (crawl_init url)).visited.Nodup ∧
    (crawl_run env bd bp n (crawl_init url)).fetched.Nodup ∧
    ∀ u, ¬(u ∈ (crawl_run env bd bp n (crawl_init url)).visited ∧
           u ∈ (crawl_run env bd bp n (crawl_init url)).to_visit) := by
  obtain ⟨h1, _, h3, _, h5, h6, _⟩ := visitInvariant_run env bd bp url n
  refine ⟨h1, h3, ?_, h5⟩
  rw [h6]
  exact List.nodup_reverse.mpr h3

/-- Witness for `crawl_at_most_once` at a concrete crawl state and URL. -/
theorem crawl_at_most_once_witness :
    (crawl_run envBfs "s.com" "/" 3 (crawl_init "http://s.com/")).enq.Nodup ∧
    ¬("http://s.com/a" ∈ (crawl_run envBfs "s.com" "/" 3
        (crawl_init "http://s.com/")).visited ∧
      "http://s.com/a" ∈ (crawl_run envBfs "s.com" "/" 3
        (crawl_init "http://s.com/")).to_visit) :=
  ⟨(crawl_at_most_once envBfs "s.com" "/" "http://s.com/" 3).1,
   (crawl_at_most_once envBfs "s.com" "/" "http://s.com/" 3).2.2.2 "http://s.com/a"⟩

/-- Claim C1 (counterexample): at a root seed, more than the domain match is
imposed.  In `envRoot` the seed `http://example.com/` has path `/`, the page
links to `http://example.com` — a fetchable URL with the same registrable
domain whose parsed path is the empty string — yet that link is never
enqueued (the enqueue history stays at just the seed) and the crawl emits
only the seed page. -/
theorem crawl_root_restriction_counterexample :
    is_valid_url "http://example.com" = true ∧
    get_domain envRoot "http://example.com" = get_domain envRoot "http://example.com/" ∧
    "http://example.com" ∈ envRoot.soup_links "B1" ∧
    envRoot.urlparse_path "http://example.com/" = "/" ∧
    (crawl_run envRoot "example.com" (base_path_of envRoot "http://example.com/") 5
        (crawl_init "http://example.com/")).enq = ["http://example.com/"] ∧
    crawl_site envRoot 5 "http://example.com/" "example.com" =
      [("http://example.com/", "B1")] := by decide

/-- Claim C1 (amended): every link enqueued during a crawl seeded at `url`
(other than the seed itself) has the seed's registrable domain and a parsed
path starting with the normalized path-prefix of the seed; when the seed's
path is the site root (`""` or `"/"`), that prefix is `"/"`, so beyond the
domain match the crawl still requires a discovered link's parsed path to be
non-empty. -/
theorem crawl_confinement (env : WebEnv) (url : String) (n : Nat) :
    (∀ u ∈ (crawl_run env (get_domain env url) (base_path_of env url) n
        (crawl_init url)).enq,
      u = url ∨ (get_domain env u = get_domain env url ∧
        pyStartswith (env.urlparse_path u) (base_path_of env url) = true)) ∧
    (∀ (e : WebEnv) (v : String), e.urlparse_path v = "" ∨ e.urlparse_path v = "/" →
      base_path_of e v = "/") := by
  constructor
  · exact confinedTo_run env (get_domain env url) (base_path_of env url) url n
  · intro e v hp
    rcases hp with hp | hp <;> simp [base_path_of, hp] <;> decide

/-- Witness for `crawl_confinement` at a concrete crawl state and a concrete
root-path seed. -/
theorem crawl_confinement_witness :
    ("http://s.com/a" = "http://s.com/" ∨
      (get_domain envBfs "http://s.com/a" = get_domain envBfs "http://s.com/" ∧
        pyStartswith (envBfs.urlparse_path "http://s.com/a")
          (base_path_of envBfs "http://s.com/") = true)) ∧
    base_path_of envRoot "http://example.com/" = "/" :=
  ⟨(crawl_confinement envBfs "http://s.com/" 3).1 "http://s.com/a" (by decide),
   (crawl_confinement envBfs "http://s.com/" 3).2 envRoot "http://example.com/"
     (Or.inr (by decide))⟩

/-- Claim C7: when the crawl yields no pages, or aggregation over every page
yields no records, the job ends in the corresponding failure outcome and no
storage upload is attempted. -/
theorem job_fails_when_empty (env : WebEnv) (synth : String → String → Option String)
    (fuel : Nat) (url : String) (hv : is_valid_url url = true)
    (h : crawl_site env fuel url (get_domain env url) = [] ∨
      aggregate synth (crawl_site env fuel url (get_domain env url)) = []) :
    (scrape_and_generate_faqs_task env synth fuel url = .noPages ∨
     scrape_and_generate_faqs_task env synth fuel url = .noFaqs) ∧
    ∀ k d, scrape_and_generate_faqs_task env synth fuel url ≠ .uploaded k d := by
  unfold scrape_and_generate_faqs_task
  rw [if_pos hv]
  by_cases hp : crawl_site env fuel url (get_domain env url) = []
  · simp [hp]
  · have hne : (crawl_site env fuel url (get_domain env url)).isEmpty = false := by
      simp [List.isEmpty_iff, hp]
    rcases h with h | h
    · exact absurd h hp
    · simp [hne, h]

/-- Witness for `job_fails_when_empty`: a site where every fetch fails
yields zero pages, and the job reports a failure without uploading. -/
theorem job_fails_when_empty_witness :
    (scrape_and_generate_faqs_task envDead synthNone 2 "http://e.com/" = .noPages ∨
     scrape_and_generate_faqs_task envDead synthNone 2 "http://e.com/" = .noFaqs) ∧
    ∀ k d, scrape_and_generate_faqs_task envDead synthNone 2 "http://e.com/" ≠
      .uploaded k d :=
  job_fails_when_empty envDead synthNone 2 "http://e.com/" (by decide)
    (Or.inl (by decide))

end ScrapV2
